import Mathlib

/-!
Verification development for the OCCT-Metal progressive path-tracing engine
(`src/Visualization/TKMetal/Metal`).  The definitions below are shallow
embeddings of the C++ code found in the repository headers:

* `Metal_HaltonSampler.hxx` — the low-discrepancy Halton sampler
  (`initFaure`, `invert`, `halton2/3/5`, `sample`, `sample2D`, `sample3D`);
* `Metal_RayTracing.hxx` — accumulation counter (`ResetAccumulation`,
  `FrameIndex`) and the adaptive-sampling configuration accessors;
* `Metal_SceneGeometry.hxx` — `Metal_BoundingBox`, `Metal_GeometryInstance`
  (`SetTransform`), and the scene-geometry store interface;
* `Metal_TileSampler.hxx` — `Reset`, `CurrentSample` and the variance state.

Machine integers are modelled as `Nat` (with explicit `% 2^32` where 32-bit
wraparound matters).  IEEE-754 binary32/binary64 values arising in the sampler
are modelled exactly as dyadic pairs `(mantissa, exponent) : ℕ × ℤ` together
with a round-to-nearest-even rounding function `rndDiv`; all values reached in
the statements below are strictly positive and within normal range, so neither
overflow, subnormal, nor sign handling is needed.  Geometric quantities are
modelled over `ℚ` (exact arithmetic; `min`/`max` on floats are exact, so the
bounding-box embedding is faithful).
-/

namespace OCCTMetal

/-! ### Metal_HaltonSampler: Faure permutation construction (`initFaure`)

`initFaure` keeps identity permutations for bases 1..3 and derives bases 4
and 5 recursively (even rule for base 4 from base 2, odd rule for base 5 from
base 4), then builds the `myPerm3`/`myPerm5` lookup tables via `invert`. -/

/-- Identity permutation of `{0, …, k-1}` (the `aPerms[k][i] = i` loop of
`initFaure` for bases `k ≤ 3`). -/
def identPerm (k : Nat) : List Nat := List.range k

/-- The even-base rule of `initFaure`: for base `2*b`, position `i` gets
`2*p_b[i]` and position `b+i` gets `2*p_b[i]+1` (positions `0..b-1` then
`b..2b-1`, i.e. the two mapped halves concatenated). -/
def faureEven (p : List Nat) : List Nat :=
  p.map (fun x => 2 * x) ++ p.map (fun x => 2 * x + 1)

/-- The odd-base rule of `initFaure` for base `aBase = 2*b+1`: starting from a
zero-filled array, position `i + (i ≥ b)` receives
`prev[i] + (prev[i] ≥ b)` for `i < aBase - 1`, and position `b` is set to
`b` (literal translation of the write loop). -/
def faureOdd (prev : List Nat) (aBase : Nat) : List Nat :=
  let b := aBase / 2
  let filled := (List.range (aBase - 1)).foldl
    (fun acc i =>
      acc.set (i + (if b ≤ i then 1 else 0))
        (prev.getD i 0 + (if b ≤ prev.getD i 0 then 1 else 0)))
    (List.replicate aBase 0)
  filled.set b b

/-- `aPerms[2]` of `initFaure` (identity). -/
def aPerms2 : List Nat := identPerm 2

/-- `aPerms[3]` of `initFaure` (identity). -/
def aPerms3 : List Nat := identPerm 3

/-- `aPerms[4]` of `initFaure` (even rule applied to `aPerms[2]`). -/
def aPerms4 : List Nat := faureEven aPerms2

/-- `aPerms[5]` of `initFaure` (odd rule applied to `aPerms[4]`). -/
def aPerms5 : List Nat := faureOdd aPerms4 5

/-- Loop body of `Metal_HaltonSampler::invert`: `theDigits` iterations of
`aResult = aResult * theBase + thePerm[theIndex % theBase]; theIndex /= theBase`. -/
def invertAux (base : Nat) (perm : List Nat) : Nat → Nat → Nat → Nat
  | 0, _, acc => acc
  | d + 1, idx, acc => invertAux base perm d (idx / base) (acc * base + perm.getD (idx % base) 0)

/-- `Metal_HaltonSampler::invert theBase theDigits theIndex thePerm`. -/
def invert (base digits idx : Nat) (perm : List Nat) : Nat :=
  invertAux base perm digits idx 0

/-- The `myPerm3` lookup table (243 entries, `myPerm3[i] = invert(3, 5, i, aPerms[3])`). -/
def myPerm3Table : List Nat := (List.range 243).map (fun i => invert 3 5 i aPerms3)

/-- The `myPerm5` lookup table (125 entries, `myPerm5[i] = invert(5, 3, i, aPerms[5])`). -/
def myPerm5Table : List Nat := (List.range 125).map (fun i => invert 5 3 i aPerms5)

/-- State of a `Metal_HaltonSampler` object: the two permutation tables
(`myPerm3`, `myPerm5`). -/
structure Metal_HaltonSampler where
  myPerm3 : List Nat
  myPerm5 : List Nat
  deriving DecidableEq

/-- The `Metal_HaltonSampler` constructor: zero-fills the tables and runs
`initFaure`, which builds both lookup tables (once, at construction). -/
def mkHaltonSampler : Metal_HaltonSampler :=
  { myPerm3 := myPerm3Table, myPerm5 := myPerm5Table }

/-! ### `halton2`: the bit-reversal swap network -/

/-- First swap of `halton2`: `theIndex = (theIndex << 16) | (theIndex >> 16)`
on `uint32` (shift-left truncates modulo `2^32`). -/
def bswap1 (n : Nat) : Nat := ((n <<< 16) % 2 ^ 32) ||| (n >>> 16)

/-- Second swap of `halton2`:
`((theIndex & 0x00ff00ff) << 8) | ((theIndex & 0xff00ff00) >> 8)`. -/
def bswap2 (n : Nat) : Nat :=
  (((n &&& 0x00ff00ff) <<< 8) % 2 ^ 32) ||| ((n &&& 0xff00ff00) >>> 8)

/-- Third swap of `halton2`:
`((theIndex & 0x0f0f0f0f) << 4) | ((theIndex & 0xf0f0f0f0) >> 4)`. -/
def bswap3 (n : Nat) : Nat :=
  (((n &&& 0x0f0f0f0f) <<< 4) % 2 ^ 32) ||| ((n &&& 0xf0f0f0f0) >>> 4)

/-- Fourth swap of `halton2`:
`((theIndex & 0x33333333) << 2) | ((theIndex & 0xcccccccc) >> 2)`. -/
def bswap4 (n : Nat) : Nat :=
  (((n &&& 0x33333333) <<< 2) % 2 ^ 32) ||| ((n &&& 0xcccccccc) >>> 2)

/-- Fifth swap of `halton2`:
`((theIndex & 0x55555555) << 1) | ((theIndex & 0xaaaaaaaa) >> 1)`. -/
def bswap5 (n : Nat) : Nat :=
  (((n &&& 0x55555555) <<< 1) % 2 ^ 32) ||| ((n &&& 0xaaaaaaaa) >>> 1)

/-- The full swap network of `halton2` (the five mask-and-shift lines). -/
def brev (n : Nat) : Nat := bswap5 (bswap4 (bswap3 (bswap2 (bswap1 n))))

/-- Mathematical reversal of the low `k` bits of `n` (specification-side
definition of "direct bit reversal of the 32-bit index"). -/
def rev : Nat → Nat → Nat
  | 0, _ => 0
  | k + 1, n => 2 ^ k * (n % 2) + rev k (n / 2)

/-- Bit-index permutation performed by `bswap1` (proof-side): output bit `m`
of `bswap1 n` is input bit `bitIdx1 m`. -/
def bitIdx1 (m : Nat) : Nat := if m < 16 then m + 16 else m - 16

/-- Bit-index permutation performed by `bswap2`. -/
def bitIdx2 (m : Nat) : Nat := if m % 16 < 8 then m + 8 else m - 8

/-- Bit-index permutation performed by `bswap3`. -/
def bitIdx3 (m : Nat) : Nat := if m % 8 < 4 then m + 4 else m - 4

/-- Bit-index permutation performed by `bswap4`. -/
def bitIdx4 (m : Nat) : Nat := if m % 4 < 2 then m + 2 else m - 2

/-- Bit-index permutation performed by `bswap5`. -/
def bitIdx5 (m : Nat) : Nat := if m % 2 < 1 then m + 1 else m - 1

/-! ### Exact model of the IEEE-754 arithmetic in `halton2/3/5`

A float value is a dyadic pair `(m, e) : ℕ × ℤ` denoting `m * 2^e` (only
nonnegative values occur).  `rndDiv p a b` rounds the positive rational `a/b`
to a `p`-bit significand with round-to-nearest, ties-to-even — the IEEE-754
default — returning a dyadic pair.  `p = 24` gives binary32, `p = 53`
binary64. -/

/-- Dyadic (floating-point) value: mantissa and binary exponent. -/
abbrev FVal := Nat × Int

/-- Rational value of a dyadic pair. -/
def fval (x : FVal) : ℚ := (x.1 : ℚ) * (2 : ℚ) ^ x.2

/-- Fuel-driven binary logarithm (`⌊log₂ n⌋` for `n > 0` when fuel suffices);
structural recursion so that kernel reduction works. -/
def log2fuel : Nat → Nat → Nat
  | 0, _ => 0
  | f + 1, n => if 2 ≤ n then log2fuel f (n / 2) + 1 else 0

/-- Test `a / b < 2^e` for naturals `a`, `b` and integer `e`. -/
def ltPow2 (a b : Nat) (e : Int) : Bool :=
  match e with
  | Int.ofNat k => a < 2 ^ k * b
  | Int.negSucc k => a * 2 ^ (k + 1) < b

/-- `⌊log₂ (a/b)⌋` for positive `a`, `b` (512 bits of fuel, ample for every
quantity reached below). -/
def floorLog2 (a b : Nat) : Int :=
  let e0 : Int := (log2fuel 512 a : Int) - (log2fuel 512 b : Int)
  if ltPow2 a b e0 then e0 - 1 else e0

/-- Round-half-even of `a / b` (positive naturals) to an integer. -/
def rhe (a b : Nat) : Nat :=
  let q := a / b
  let r := a % b
  if 2 * r < b then q else if b < 2 * r then q + 1 else if q % 2 = 0 then q else q + 1

/-- Round the positive rational `a / b` to a `p`-bit significand,
round-to-nearest ties-to-even, as a dyadic pair. -/
def rndDiv (p a b : Nat) : FVal :=
  if a = 0 then (0, 0) else
  let e := floorLog2 a b
  let k : Int := (p : Int) - 1 - e
  let a2 := if 0 ≤ k then a * 2 ^ k.toNat else a
  let b2 := if 0 ≤ k then b else b * 2 ^ (-k).toNat
  (rhe a2 b2, e - (p : Int) + 1)

/-- Round a natural number to a `p`-bit float (e.g. the C++ conversion of the
`unsigned` digit sum to `float`). -/
def rndNat (p m : Nat) : FVal := rndDiv p m 1

/-- Exact product of two dyadic values (before rounding). -/
def fmulExact (x y : FVal) : FVal := (x.1 * y.1, x.2 + y.2)

/-- Round a dyadic value to a `p`-bit significand. -/
def rndF (p : Nat) (x : FVal) : FVal :=
  let r := rndDiv p x.1 1
  (r.1, r.2 + x.2)

/-- `p`-bit rounded product of two floats (one IEEE multiplication). -/
def fmul (p : Nat) (x y : FVal) : FVal := rndF p (fmulExact x y)

/-- The double constant `0.999999999999999` (decimal literal rounded to
binary64). -/
def dblNearOne : FVal := rndDiv 53 999999999999999 (10 ^ 15)

/-- Quotient of a dyadic value by a natural number, rounded to `p` bits
(models a double division `x / n`). -/
def fdivNat (p : Nat) (x : FVal) (n : Nat) : FVal :=
  match x.2 with
  | Int.ofNat k => rndDiv p (x.1 * 2 ^ k) n
  | Int.negSucc k => rndDiv p x.1 (n * 2 ^ (k + 1))

/-- The `halton3` scaling constant `float(0.999999999999999 / 3486784401)`:
binary64 division, then conversion to binary32. -/
def c3const : FVal := rndF 24 (fdivNat 53 dblNearOne 3486784401)

/-- The `halton5` scaling constant `float(0.999999999999999 / 244140625)`. -/
def c5const : FVal := rndF 24 (fdivNat 53 dblNearOne 244140625)

/-- The permuted digit sum of `halton3` (exact `unsigned` arithmetic; the
largest possible value is `3486784400 < 2^32`, so no wraparound occurs):
`myPerm3[i % 243] * 14348907 + myPerm3[(i / 243) % 243] * 59049 +
 myPerm3[(i / 59049) % 243] * 243 + myPerm3[(i / 14348907) % 243]`. -/
def halton3Sum (s : Metal_HaltonSampler) (i : Nat) : Nat :=
  s.myPerm3.getD (i % 243) 0 * 14348907 +
    s.myPerm3.getD (i / 243 % 243) 0 * 59049 +
    s.myPerm3.getD (i / 59049 % 243) 0 * 243 +
    s.myPerm3.getD (i / 14348907 % 243) 0

/-- The permuted digit sum of `halton5` (largest value `244140624 < 2^32`):
`myPerm5[i % 125] * 1953125 + myPerm5[(i / 125) % 125] * 15625 +
 myPerm5[(i / 15625) % 125] * 125 + myPerm5[(i / 1953125) % 125]`. -/
def halton5Sum (s : Metal_HaltonSampler) (i : Nat) : Nat :=
  s.myPerm5.getD (i % 125) 0 * 1953125 +
    s.myPerm5.getD (i / 125 % 125) 0 * 15625 +
    s.myPerm5.getD (i / 15625 % 125) 0 * 125 +
    s.myPerm5.getD (i / 1953125 % 125) 0

/-- `Metal_HaltonSampler::halton2`: reverses the 32 bits of the index, writes
the top 23 reversed bits into the mantissa of the float `1.0f`
(`0x3f800000u | (theIndex >> 9)` denotes `1 + (theIndex >> 9) * 2^-23`),
and subtracts `1.0f` (exact, by Sterbenz's lemma), yielding
`(brev i >>> 9) * 2^-23` exactly. -/
def halton2 (i : Nat) : FVal := (brev (i % 2 ^ 32) >>> 9, -23)

/-- `Metal_HaltonSampler::halton3`: the permuted digit sum is converted to
`float` and multiplied (in `float`) by the constant. -/
def halton3 (s : Metal_HaltonSampler) (i : Nat) : FVal :=
  fmul 24 (rndNat 24 (halton3Sum s (i % 2 ^ 32))) c3const

/-- `Metal_HaltonSampler::halton5`: as `halton3`, in base 5. -/
def halton5 (s : Metal_HaltonSampler) (i : Nat) : FVal :=
  fmul 24 (rndNat 24 (halton5Sum s (i % 2 ^ 32))) c5const

/-- `Metal_HaltonSampler::sample`: dispatches on the dimension, returning
`0.0f` for any dimension other than 0, 1, 2. -/
def sample (s : Metal_HaltonSampler) (dim i : Nat) : FVal :=
  match dim with
  | 0 => halton2 i
  | 1 => halton3 s i
  | 2 => halton5 s i
  | _ => (0, 0)

/-- `Metal_HaltonSampler::sample2D`: writes `halton2 i` and `halton3 i` to the
two output parameters. -/
def sample2D (s : Metal_HaltonSampler) (i : Nat) : FVal × FVal :=
  (halton2 i, halton3 s i)

/-- `Metal_HaltonSampler::sample3D`: writes `halton2 i`, `halton3 i`,
`halton5 i` to the three output parameters. -/
def sample3D (s : Metal_HaltonSampler) (i : Nat) : FVal × FVal × FVal :=
  (halton2 i, halton3 s i, halton5 s i)

/-- A call to the `const` method `sample`: returns the value together with the
(unchanged) object state, reflecting that a `const` member function cannot
mutate the sampler. -/
def sampleCall (s : Metal_HaltonSampler) (dim i : Nat) : FVal × Metal_HaltonSampler :=
  (sample s dim i, s)

/-- A call to the `const` method `sample2D` (value and unchanged state). -/
def sample2DCall (s : Metal_HaltonSampler) (i : Nat) :
    (FVal × FVal) × Metal_HaltonSampler :=
  (sample2D s i, s)

/-- A call to the `const` method `sample3D` (value and unchanged state). -/
def sample3DCall (s : Metal_HaltonSampler) (i : Nat) :
    (FVal × FVal × FVal) × Metal_HaltonSampler :=
  (sample3D s i, s)

/-! ### Metal_RayTracing: accumulation counter and adaptive sampling -/

/-- The accumulation-related state of a `Metal_RayTracing` object:
`myFrameIndex` is a `uint32` (`FrameIndex()` accessor). -/
structure Metal_RayTracing where
  myFrameIndex : Nat
  deriving DecidableEq

/-- `Metal_RayTracing::ResetAccumulation`: `myFrameIndex = 0`. -/
def ResetAccumulation (s : Metal_RayTracing) : Metal_RayTracing :=
  { s with myFrameIndex := 0 }

/-- `Metal_RayTracing::FrameIndex`: returns `myFrameIndex`. -/
def FrameIndex (s : Metal_RayTracing) : Nat := s.myFrameIndex

/-- Modelled from the spec: the effect of one `Trace()` call on the frame
counter.  `Trace` is implemented in `Metal_RayTracing.mm`, which is not among
the headers in `src/`; per spec §4.4 step 4 ("Accumulate: … increment the
frame counter") and §8 ("the accumulation frame counter strictly increases"),
one frame increments the `uint32` counter by one (wrapping modulo `2^32`). -/
def TraceStep (s : Metal_RayTracing) : Metal_RayTracing :=
  { s with myFrameIndex := (s.myFrameIndex + 1) % 2 ^ 32 }

/-- Adaptive-sampling configuration of `Metal_RayTracing` (fields
`myAdaptiveSamplingEnabled`, `myMinSamples`, `myMaxSamples`,
`myVarianceThreshold`, with their `Set…` accessors). -/
structure AdaptiveConfig where
  adaptiveSamplingEnabled : Bool
  minSamples : Nat
  maxSamples : Nat
  varianceThreshold : ℚ
  deriving DecidableEq

/-- `Metal_RayTracing::SetMaxSamples`. -/
def SetMaxSamples (v : Nat) (c : AdaptiveConfig) : AdaptiveConfig :=
  { c with maxSamples := v }

/-- `Metal_RayTracing::MaxSamples`. -/
def MaxSamples (c : AdaptiveConfig) : Nat := c.maxSamples

/-- The defaults documented in `Metal_RayTracing.hxx` (threshold `0.01`,
minimum 16, maximum 1024 samples; the constructor lives in the missing
`Metal_RayTracing.mm`). -/
def adaptiveDefaults : AdaptiveConfig :=
  { adaptiveSamplingEnabled := false, minSamples := 16, maxSamples := 1024,
    varianceThreshold := 1 / 100 }

/-- Per-pixel statistics entry of `myPixelStatsBuffer`: recorded sample count,
accumulated radiance and current variance estimate. -/
structure PixelStats where
  samples : Nat
  radiance : ℚ
  variance : ℚ
  deriving DecidableEq

/-- Modelled from the spec: the adaptive gate of the adaptive path-tracing
kernel (`myAdaptivePathTracePipeline`; the kernel source is not among the
headers in `src/`).  Per spec §4.4 step 5, a pixel stops receiving further
samples once `samples ≥ MinSamples` and estimated variance <
`VarianceThreshold`, or once `samples ≥ MaxSamples` regardless of variance. -/
def adaptiveGateStops (c : AdaptiveConfig) (p : PixelStats) : Bool :=
  c.adaptiveSamplingEnabled &&
    (decide (c.maxSamples ≤ p.samples) ||
      (decide (c.minSamples ≤ p.samples) && decide (p.variance < c.varianceThreshold)))

/-- Modelled from the spec: one Trace/accumulate step for a single pixel.  If
the adaptive gate stops the pixel, its statistics are untouched; otherwise the
frame's radiance `contrib` is accumulated, the sample count incremented and
the variance estimate replaced by `newVar` (§4.4 step 4: "add this frame's
radiance sample into the Accumulation Buffer, update Per-Pixel Statistics"). -/
def adaptiveAccumStep (c : AdaptiveConfig) (fr : ℚ × ℚ) (p : PixelStats) : PixelStats :=
  if adaptiveGateStops c p then p
  else { samples := p.samples + 1, radiance := p.radiance + fr.1, variance := fr.2 }

/-- A sequence of Trace/accumulate steps applied to one pixel (each frame
carries a radiance contribution and a new variance estimate). -/
def adaptiveAccumRun (c : AdaptiveConfig) (frames : List (ℚ × ℚ)) (p : PixelStats) :
    PixelStats :=
  frames.foldl (fun q fr => adaptiveAccumStep c fr q) p

/-! ### Metal_SceneGeometry: bounding box, instances, acceleration structure -/

/-- A 3-component float vector (`NCollection_Vec3<float>`), modelled over `ℚ`
(the bounding-box code uses only `std::min`/`std::max`, which are exact on
floats, so exact arithmetic is faithful). -/
structure Vec3 where
  x : ℚ
  y : ℚ
  z : ℚ
  deriving DecidableEq

/-- `FLT_MAX`, the largest finite binary32 value `(2^24 - 1) * 2^104`. -/
def FLT_MAX : ℚ := (2 ^ 24 - 1) * 2 ^ 104

/-- `Metal_BoundingBox`: minimum and maximum corners. -/
structure Metal_BoundingBox where
  Min : Vec3
  Max : Vec3
  deriving DecidableEq

/-- The `Metal_BoundingBox` default constructor: invalid bounds
`Min = (FLT_MAX, FLT_MAX, FLT_MAX)`, `Max = (-FLT_MAX, -FLT_MAX, -FLT_MAX)`. -/
def mkBoundingBox : Metal_BoundingBox :=
  { Min := ⟨FLT_MAX, FLT_MAX, FLT_MAX⟩, Max := ⟨-FLT_MAX, -FLT_MAX, -FLT_MAX⟩ }

/-- `Metal_BoundingBox::IsValid`: `Min.x() <= Max.x()`. -/
def boxIsValid (b : Metal_BoundingBox) : Bool := decide (b.Min.x ≤ b.Max.x)

/-- `Metal_BoundingBox::Add(const NCollection_Vec3<float>&)`: componentwise
`min` into `Min` and `max` into `Max`. -/
def boxAddPoint (b : Metal_BoundingBox) (p : Vec3) : Metal_BoundingBox :=
  { Min := ⟨min b.Min.x p.x, min b.Min.y p.y, min b.Min.z p.z⟩,
    Max := ⟨max b.Max.x p.x, max b.Max.y p.y, max b.Max.z p.z⟩ }

/-- `Metal_BoundingBox::Add(const Metal_BoundingBox&)`: if the other box is
valid, add its two corners; otherwise do nothing. -/
def boxAddBox (b other : Metal_BoundingBox) : Metal_BoundingBox :=
  if boxIsValid other then boxAddPoint (boxAddPoint b other.Min) other.Max else b

/-- Specification-side notion "box `b` contains point `p`" (componentwise
between the corners). -/
def boxContains (b : Metal_BoundingBox) (p : Vec3) : Prop :=
  b.Min.x ≤ p.x ∧ p.x ≤ b.Max.x ∧ b.Min.y ≤ p.y ∧ p.y ≤ b.Max.y ∧
    b.Min.z ≤ p.z ∧ p.z ≤ b.Max.z

/-- Specification-side notion "the bounds of `b` are contained in the bounds
of `c`" (the `[Min, Max]` interval of `b` lies inside that of `c`,
componentwise). -/
def boxSubset (b c : Metal_BoundingBox) : Prop :=
  c.Min.x ≤ b.Min.x ∧ c.Min.y ≤ b.Min.y ∧ c.Min.z ≤ b.Min.z ∧
    b.Max.x ≤ c.Max.x ∧ b.Max.y ≤ c.Max.y ∧ b.Max.z ≤ c.Max.z

/-- 4×4 float matrix (`NCollection_Mat4<float>`), in exact arithmetic. -/
abbrev Mat4 := Matrix (Fin 4) (Fin 4) ℚ

/-- Modelled from the spec: `NCollection_Mat4::IsIdentity` (the OCCT core
collection class is not among the files under `src/`); tests equality with
the identity matrix. -/
def matIsIdentity (m : Mat4) : Bool := decide (m = 1)

/-- Modelled from the spec: `NCollection_Mat4::IsInvertible` — the transform
is invertible exactly when its determinant is nonzero (spec §3:
"set to identity if the transform is non-invertible"). -/
def matIsInvertible (m : Mat4) : Bool := decide (m.det ≠ 0)

/-- Modelled from the spec: the computed matrix inverse used by
`SetTransform` when the transform is invertible (exact arithmetic:
`det⁻¹ • adjugate`). -/
def matInverted (m : Mat4) : Mat4 := m.det⁻¹ • m.adjugate

/-- `Metal_GeometryInstance`: mesh reference omitted (opaque handle), the
transform, its cached inverse, material override and visibility flag. -/
structure Metal_GeometryInstance where
  Transform : Mat4
  TransformInverse : Mat4
  MaterialOverride : Int
  Visible : Bool

/-- The `Metal_GeometryInstance` default constructor: identity transform and
inverse, `MaterialOverride = -1`, visible. -/
def mkGeometryInstance : Metal_GeometryInstance :=
  { Transform := 1, TransformInverse := 1, MaterialOverride := -1, Visible := true }

/-- `Metal_GeometryInstance::SetTransform`: stores the transform and
recomputes the inverse —
`TransformInverse = theTransform.IsIdentity() ? Mat4() :
 theTransform.IsInvertible() ? theTransform.IsInverted() : Mat4()`
(the default-constructed `NCollection_Mat4` is the identity). -/
def SetTransform (t : Mat4) (g : Metal_GeometryInstance) : Metal_GeometryInstance :=
  { g with
    Transform := t,
    TransformInverse :=
      if matIsIdentity t then 1 else if matIsInvertible t then matInverted t else 1 }

/-- Scene-geometry store state: per-mesh triangle counts stand for the
CPU-side mesh set, `uploadedCount` for the GPU-resident meshes, `accel` for
the acceleration structure (`myAccelStructure`; `some` = non-null, holding the
flattened-geometry snapshot it was built from), and the dirty flag. -/
structure Metal_SceneGeometry where
  meshes : List Nat
  uploadedCount : Nat
  accel : Option (List Nat)
  myIsDirty : Bool
  deriving DecidableEq

/-- `Metal_SceneGeometry::HasAccelerationStructure`:
`myAccelStructure != nullptr`. -/
def HasAccelerationStructure (s : Metal_SceneGeometry) : Bool := s.accel.isSome

/-- `Metal_SceneGeometry::SetDirty`: `myIsDirty = true`. -/
def SetDirty (s : Metal_SceneGeometry) : Metal_SceneGeometry :=
  { s with myIsDirty := true }

/-- Modelled from the spec: `Metal_SceneGeometry::UploadMeshes` is implemented
in the missing `Metal_SceneGeometry.mm`.  Per spec §4.2 it is idempotent
(uploads only meshes not yet GPU-resident) and returns a success flag; on
allocation failure it returns `false` and leaves the state as it was (§7:
resource-exhaustion failures are propagated as a boolean, never an
exception).  The GPU allocation outcome is the oracle `allocOk`. -/
def UploadMeshes (allocOk : Bool) (s : Metal_SceneGeometry) :
    Bool × Metal_SceneGeometry :=
  if allocOk then (true, { s with uploadedCount := s.meshes.length }) else (false, s)

/-- Modelled from the spec: `Metal_SceneGeometry::BuildAccelerationStructure`
is implemented in the missing `Metal_SceneGeometry.mm`.  Per spec §4.2 it
flattens geometry and materials into contiguous buffers and rebuilds the
acceleration structure, returning a success flag; on failure the structure is
left explicitly invalid (`HasAccelerationStructure() == false`) rather than
partially built (§7: the caller must not trace against a partially-built
structure).  The GPU allocation outcome is the oracle `allocOk`. -/
def BuildAccelerationStructure (allocOk : Bool) (s : Metal_SceneGeometry) :
    Bool × Metal_SceneGeometry :=
  if allocOk then (true, { s with accel := some s.meshes, myIsDirty := false })
  else (false, { s with accel := none })

/-! ### Metal_TileSampler -/

/-- `Metal_TileSampler` state: the sample counter `myLastSample` and the
pixmap/vector members relevant to the claims (`myVarianceMap`,
`myVarianceRaw`, `myTiles`, `myMarginalMap`). -/
structure Metal_TileSampler where
  myLastSample : Nat
  myVarianceMap : List ℚ
  myVarianceRaw : List Int
  myTiles : List Nat
  myMarginalMap : List ℚ
  deriving DecidableEq

/-- `Metal_TileSampler::Reset`: `myLastSample = 0` (the only statement in the
function body). -/
def TileReset (s : Metal_TileSampler) : Metal_TileSampler :=
  { s with myLastSample := 0 }

/-- `Metal_TileSampler::CurrentSample`: returns `myLastSample`. -/
def CurrentSample (s : Metal_TileSampler) : Nat := s.myLastSample

/-- A concrete tile-sampler state holding variance data (as after
`GrabVarianceMap` has ingested a variance texture) and a nonzero sample
counter. -/
def tileStateEx : Metal_TileSampler :=
  { myLastSample := 7, myVarianceMap := [1 / 2, 3], myVarianceRaw := [5, 0],
    myTiles := [4, 4], myMarginalMap := [2 / 5, 1] }

/-! ## Theorems

First, auxiliary lemmas about the `halton2` swap network: each swap stage
permutes the 32 bits, and the composition is the full bit reversal. -/

lemma maskBit_ext {M : Nat} (P : Nat → Prop) [DecidablePred P] (hM : M < 2 ^ 32)
    (hlow : ∀ k, k < 32 → Nat.testBit M k = decide (k < 32 ∧ P k)) (j : Nat) :
    Nat.testBit M j = decide (j < 32 ∧ P j) := by
  by_cases h : j < 32
  · exact hlow j h
  · have hlt : M < 2 ^ j := lt_of_lt_of_le hM (Nat.pow_le_pow_right (by norm_num) (by omega))
    rw [Nat.testBit_eq_false_of_lt hlt]
    simp
    omega

lemma mask00ff00ff_bit (j : Nat) :
    Nat.testBit 0x00ff00ff j = decide (j < 32 ∧ j % 16 < 8) :=
  maskBit_ext (fun k => k % 16 < 8) (by norm_num) (by decide) j

lemma maskff00ff00_bit (j : Nat) :
    Nat.testBit 0xff00ff00 j = decide (j < 32 ∧ 8 ≤ j % 16) :=
  maskBit_ext (fun k => 8 ≤ k % 16) (by norm_num) (by decide) j

lemma mask0f0f0f0f_bit (j : Nat) :
    Nat.testBit 0x0f0f0f0f j = decide (j < 32 ∧ j % 8 < 4) :=
  maskBit_ext (fun k => k % 8 < 4) (by norm_num) (by decide) j

lemma maskf0f0f0f0_bit (j : Nat) :
    Nat.testBit 0xf0f0f0f0 j = decide (j < 32 ∧ 4 ≤ j % 8) :=
  maskBit_ext (fun k => 4 ≤ k % 8) (by norm_num) (by decide) j

lemma mask33333333_bit (j : Nat) :
    Nat.testBit 0x33333333 j = decide (j < 32 ∧ j % 4 < 2) :=
  maskBit_ext (fun k => k % 4 < 2) (by norm_num) (by decide) j

lemma maskcccccccc_bit (j : Nat) :
    Nat.testBit 0xcccccccc j = decide (j < 32 ∧ 2 ≤ j % 4) :=
  maskBit_ext (fun k => 2 ≤ k % 4) (by norm_num) (by decide) j

lemma mask55555555_bit (j : Nat) :
    Nat.testBit 0x55555555 j = decide (j < 32 ∧ j % 2 < 1) :=
  maskBit_ext (fun k => k % 2 < 1) (by norm_num) (by decide) j

lemma maskaaaaaaaa_bit (j : Nat) :
    Nat.testBit 0xaaaaaaaa j = decide (j < 32 ∧ 1 ≤ j % 2) :=
  maskBit_ext (fun k => 1 ≤ k % 2) (by norm_num) (by decide) j

lemma bswap1_testBit (n j : Nat) (hn : n < 2 ^ 32) (hj : j < 32) :
    (bswap1 n).testBit j = n.testBit (bitIdx1 j) := by
  have h32 : ∀ k, 32 ≤ k → n.testBit k = false := fun k hk =>
    Nat.testBit_eq_false_of_lt (lt_of_lt_of_le hn (Nat.pow_le_pow_right (by norm_num) hk))
  simp only [bswap1, bitIdx1, Nat.testBit_lor, Nat.testBit_mod_two_pow, Nat.testBit_shiftLeft,
    Nat.testBit_shiftRight]
  interval_cases j <;> simp [h32]

lemma bswap2_testBit (n j : Nat) (hj : j < 32) :
    (bswap2 n).testBit j = n.testBit (bitIdx2 j) := by
  simp only [bswap2, bitIdx2, Nat.testBit_lor, Nat.testBit_mod_two_pow, Nat.testBit_shiftLeft,
    Nat.testBit_land, Nat.testBit_shiftRight, mask00ff00ff_bit, maskff00ff00_bit]
  interval_cases j <;> simp

lemma bswap3_testBit (n j : Nat) (hj : j < 32) :
    (bswap3 n).testBit j = n.testBit (bitIdx3 j) := by
  simp only [bswap3, bitIdx3, Nat.testBit_lor, Nat.testBit_mod_two_pow, Nat.testBit_shiftLeft,
    Nat.testBit_land, Nat.testBit_shiftRight, mask0f0f0f0f_bit, maskf0f0f0f0_bit]
  interval_cases j <;> simp

lemma bswap4_testBit (n j : Nat) (hj : j < 32) :
    (bswap4 n).testBit j = n.testBit (bitIdx4 j) := by
  simp only [bswap4, bitIdx4, Nat.testBit_lor, Nat.testBit_mod_two_pow, Nat.testBit_shiftLeft,
    Nat.testBit_land, Nat.testBit_shiftRight, mask33333333_bit, maskcccccccc_bit]
  interval_cases j <;> simp

lemma bswap5_testBit (n j : Nat) (hj : j < 32) :
    (bswap5 n).testBit j = n.testBit (bitIdx5 j) := by
  simp only [bswap5, bitIdx5, Nat.testBit_lor, Nat.testBit_mod_two_pow, Nat.testBit_shiftLeft,
    Nat.testBit_land, Nat.testBit_shiftRight, mask55555555_bit, maskaaaaaaaa_bit]
  interval_cases j <;> simp

lemma shiftRight_le_self (a s : Nat) : a >>> s ≤ a := by
  rw [Nat.shiftRight_eq_div_pow]
  exact Nat.div_le_self _ _

lemma lor_mod_lt (a b : Nat) (hb : b < 2 ^ 32) : (a % 2 ^ 32) ||| b < 2 ^ 32 :=
  Nat.bitwise_lt_two_pow (Nat.mod_lt _ (by norm_num)) hb

lemma bswap1_lt (n : Nat) (hn : n < 2 ^ 32) : bswap1 n < 2 ^ 32 := by
  unfold bswap1
  exact lor_mod_lt _ _ (lt_of_le_of_lt (shiftRight_le_self n 16) hn)

lemma bswap2_lt (n : Nat) : bswap2 n < 2 ^ 32 := by
  unfold bswap2
  exact lor_mod_lt _ _
    (lt_of_le_of_lt (le_trans (shiftRight_le_self _ 8) Nat.and_le_right) (by norm_num))

lemma bswap3_lt (n : Nat) : bswap3 n < 2 ^ 32 := by
  unfold bswap3
  exact lor_mod_lt _ _
    (lt_of_le_of_lt (le_trans (shiftRight_le_self _ 4) Nat.and_le_right) (by norm_num))

lemma bswap4_lt (n : Nat) : bswap4 n < 2 ^ 32 := by
  unfold bswap4
  exact lor_mod_lt _ _
    (lt_of_le_of_lt (le_trans (shiftRight_le_self _ 2) Nat.and_le_right) (by norm_num))

lemma bswap5_lt (n : Nat) : bswap5 n < 2 ^ 32 := by
  unfold bswap5
  exact lor_mod_lt _ _
    (lt_of_le_of_lt (le_trans (shiftRight_le_self _ 1) Nat.and_le_right) (by norm_num))

lemma brev_lt (n : Nat) : brev n < 2 ^ 32 := bswap5_lt _

lemma rev_lt : ∀ (k n : Nat), rev k n < 2 ^ k := by
  intro k
  induction k with
  | zero => intro n; simp [rev]
  | succ k ih =>
    intro n
    have h1 : n % 2 ≤ 1 := by omega
    have h2 : 2 ^ k * (n % 2) ≤ 2 ^ k := by
      calc 2 ^ k * (n % 2) ≤ 2 ^ k * 1 := Nat.mul_le_mul_left _ h1
        _ = 2 ^ k := Nat.mul_one _
    have h3 := ih (n / 2)
    have h4 : (2 : Nat) ^ (k + 1) = 2 ^ k + 2 ^ k := by ring
    rw [rev]
    omega

lemma rev_testBit : ∀ (k n j : Nat),
    (rev k n).testBit j = (decide (j < k) && n.testBit (k - 1 - j)) := by
  intro k
  induction k with
  | zero => intro n j; simp [rev, Nat.zero_testBit]
  | succ k ih =>
    intro n j
    rw [rev]
    rcases Nat.lt_trichotomy j k with hj | hj | hj
    · have hr := rev_lt k (n / 2)
      have hmod : (2 ^ k * (n % 2) + rev k (n / 2)) % 2 ^ k = rev k (n / 2) := by
        rw [Nat.mul_add_mod, Nat.mod_eq_of_lt hr]
      have e1 := Nat.testBit_mod_two_pow (2 ^ k * (n % 2) + rev k (n / 2)) k j
      rw [hmod] at e1
      rw [decide_eq_true hj, Bool.true_and] at e1
      rw [← e1, ih]
      have hsucc : (n / 2).testBit (k - 1 - j) = n.testBit (k - 1 - j + 1) :=
        (Nat.testBit_succ n (k - 1 - j)).symm
      rw [hsucc]
      have hidx : k - 1 - j + 1 = k + 1 - 1 - j := by omega
      rw [hidx]
      simp [hj, Nat.lt_succ_of_lt hj]
    · subst hj
      have hr := rev_lt j (n / 2)
      rw [Nat.testBit_to_div_mod]
      have hdiv : (2 ^ j * (n % 2) + rev j (n / 2)) / 2 ^ j = n % 2 + rev j (n / 2) / 2 ^ j :=
        Nat.mul_add_div (Nat.pos_pow_of_pos j (by norm_num)) _ _
      rw [hdiv, Nat.div_eq_of_lt hr]
      have hz : j + 1 - 1 - j = 0 := by omega
      rw [hz, Nat.testBit_zero]
      simp
    · have hx : 2 ^ k * (n % 2) + rev k (n / 2) < 2 ^ j := by
        have h1 : n % 2 ≤ 1 := by omega
        have h2 : 2 ^ k * (n % 2) ≤ 2 ^ k := by
          calc 2 ^ k * (n % 2) ≤ 2 ^ k * 1 := Nat.mul_le_mul_left _ h1
            _ = 2 ^ k := Nat.mul_one _
        have h3 := rev_lt k (n / 2)
        have h4 : (2 : Nat) ^ (k + 1) ≤ 2 ^ j := Nat.pow_le_pow_right (by norm_num) hj
        have h5 : (2 : Nat) ^ (k + 1) = 2 ^ k + 2 ^ k := by ring
        omega
      rw [Nat.testBit_eq_false_of_lt hx]
      have hnot : ¬(j < k + 1) := by omega
      simp [hnot]

lemma brev_testBit (n j : Nat) (hn : n < 2 ^ 32) (hj : j < 32) :
    (brev n).testBit j = n.testBit (31 - j) := by
  have hb5 : ∀ m, m < 32 → bitIdx5 m < 32 := by decide
  have hb4 : ∀ m, m < 32 → bitIdx4 m < 32 := by decide
  have hb3 : ∀ m, m < 32 → bitIdx3 m < 32 := by decide
  have hb2 : ∀ m, m < 32 → bitIdx2 m < 32 := by decide
  have h5 := hb5 j hj
  have h4 := hb4 _ h5
  have h3 := hb3 _ h4
  have h2 := hb2 _ h3
  rw [show brev n = bswap5 (bswap4 (bswap3 (bswap2 (bswap1 n)))) from rfl,
    bswap5_testBit _ j hj, bswap4_testBit _ _ h5, bswap3_testBit _ _ h4,
    bswap2_testBit _ _ h3, bswap1_testBit _ _ hn h2]
  have hidx : ∀ m, m < 32 → bitIdx1 (bitIdx2 (bitIdx3 (bitIdx4 (bitIdx5 m)))) = 31 - m := by
    decide
  rw [hidx j hj]

lemma brev_eq_rev32 (n : Nat) (hn : n < 2 ^ 32) : brev n = rev 32 n := by
  apply Nat.eq_of_testBit_eq
  intro j
  by_cases hj : j < 32
  · rw [brev_testBit n j hn hj, rev_testBit]
    have h1 : 32 - 1 - j = 31 - j := by omega
    simp [hj, h1]
  · have h1 : brev n < 2 ^ j :=
      lt_of_lt_of_le (brev_lt n) (Nat.pow_le_pow_right (by norm_num) (by omega))
    have h2 : rev 32 n < 2 ^ j :=
      lt_of_lt_of_le (rev_lt 32 n) (Nat.pow_le_pow_right (by norm_num) (by omega))
    rw [Nat.testBit_eq_false_of_lt h1, Nat.testBit_eq_false_of_lt h2]

/-! ## Claim theorems -/

/-- C1: `ResetAccumulation()` sets the accumulation frame counter to zero
regardless of its prior value — `FrameIndex()` returns 0 immediately after —
and one subsequent `Trace` with unchanged configuration yields a frame
counter of exactly 1. -/
theorem C1_resetAccumulation_zero_then_one (s : Metal_RayTracing) :
    FrameIndex (ResetAccumulation s) = 0 ∧
      FrameIndex (TraceStep (ResetAccumulation s)) = 1 := by
  refine ⟨rfl, ?_⟩
  simp [FrameIndex, TraceStep, ResetAccumulation]

/-- C2: with adaptive sampling enabled, once a pixel's recorded sample count
has reached `MaxSamples()`, no further samples are ever accumulated into it:
in every subsequent Trace/accumulate step its sample count and accumulated
radiance remain unchanged, regardless of variance. -/
theorem C2_maxSamples_stops_accumulation (c : AdaptiveConfig) (p : PixelStats)
    (hOn : c.adaptiveSamplingEnabled = true) (hMax : MaxSamples c ≤ p.samples) :
    ∀ frames : List (ℚ × ℚ), (adaptiveAccumRun c frames p).samples = p.samples ∧
      (adaptiveAccumRun c frames p).radiance = p.radiance := by
  have hM : c.maxSamples ≤ p.samples := hMax
  have hstep : ∀ fr, adaptiveAccumStep c fr p = p := by
    intro fr
    have hgate : adaptiveGateStops c p = true := by
      simp [adaptiveGateStops, hOn, hM]
    simp [adaptiveAccumStep, hgate]
  intro frames
  have hrun : adaptiveAccumRun c frames p = p := by
    induction frames with
    | nil => rfl
    | cons fr fs ih =>
      have hc : adaptiveAccumRun c (fr :: fs) p =
          adaptiveAccumRun c fs (adaptiveAccumStep c fr p) := rfl
      rw [hc, hstep fr]
      exact ih
  rw [hrun]
  exact ⟨rfl, rfl⟩

/-- C2 witness: a concrete pixel at the default sample cap of 1024 is left
untouched by two further accumulate steps. -/
theorem C2_maxSamples_stops_accumulation_witness :
    (⟨true, 16, 1024, 1 / 100⟩ : AdaptiveConfig).adaptiveSamplingEnabled = true ∧
      MaxSamples ⟨true, 16, 1024, 1 / 100⟩ ≤ (⟨1024, 5, 3⟩ : PixelStats).samples ∧
      (adaptiveAccumRun ⟨true, 16, 1024, 1 / 100⟩ [(1, 2), (3, 4)]
        ⟨1024, 5, 3⟩).samples = (⟨1024, 5, 3⟩ : PixelStats).samples ∧
      (adaptiveAccumRun ⟨true, 16, 1024, 1 / 100⟩ [(1, 2), (3, 4)]
        ⟨1024, 5, 3⟩).radiance = (⟨1024, 5, 3⟩ : PixelStats).radiance := by
  have h := C2_maxSamples_stops_accumulation ⟨true, 16, 1024, 1 / 100⟩ ⟨1024, 5, 3⟩ rfl
    (le_refl 1024) [(1, 2), (3, 4)]
  exact ⟨rfl, le_refl 1024, h.1, h.2⟩

/-- C3: after `SetTransform`, the stored transform is the given matrix;
whenever it is invertible, `TransformInverse * Transform` is the identity
(exact arithmetic); whenever it is singular, `TransformInverse` is the
identity matrix.  The inverse is a function of the new transform alone, i.e.
recomputed on every `SetTransform`. -/
theorem C3_setTransform_inverse (g : Metal_GeometryInstance) (t : Mat4) :
    (SetTransform t g).Transform = t ∧
      (t.det ≠ 0 → (SetTransform t g).TransformInverse * (SetTransform t g).Transform = 1) ∧
      (t.det = 0 → (SetTransform t g).TransformInverse = 1) := by
  refine ⟨rfl, ?_, ?_⟩
  · intro hdet
    show (if matIsIdentity t then 1 else if matIsInvertible t then matInverted t else 1) * t = 1
    by_cases hid : matIsIdentity t = true
    · have ht : t = 1 := of_decide_eq_true hid
      rw [if_pos hid, ht, one_mul]
    · have hinv : matIsInvertible t = true := decide_eq_true hdet
      rw [if_neg hid, if_pos hinv, matInverted, smul_mul_assoc, Matrix.adjugate_mul,
        smul_smul, inv_mul_cancel₀ hdet, one_smul]
  · intro hdet
    show (if matIsIdentity t then 1 else if matIsInvertible t then matInverted t else 1) = 1
    by_cases hid : matIsIdentity t = true
    · rw [if_pos hid]
    · have hinv : ¬(matIsInvertible t = true) := by
        simp [matIsInvertible, hdet]
      rw [if_neg hid, if_neg hinv]

/-- C3 witness: a diagonal (invertible) transform gets a true inverse; the
zero (singular) transform gets the identity as its inverse. -/
theorem C3_setTransform_inverse_witness :
    (SetTransform (Matrix.diagonal ![2, 1, 1, 1]) mkGeometryInstance).TransformInverse *
        (SetTransform (Matrix.diagonal ![2, 1, 1, 1]) mkGeometryInstance).Transform = 1 ∧
      (SetTransform 0 mkGeometryInstance).TransformInverse = 1 := by
  constructor
  · exact (C3_setTransform_inverse mkGeometryInstance (Matrix.diagonal ![2, 1, 1, 1])).2.1
      (by rw [Matrix.det_diagonal, Fin.prod_univ_four]; norm_num)
  · exact (C3_setTransform_inverse mkGeometryInstance 0).2.2 (Matrix.det_zero ⟨0⟩)

/-- C4: a failed `UploadMeshes` returns `false` and leaves the state exactly
as it was; a failed `BuildAccelerationStructure` returns `false` and leaves
the acceleration structure explicitly invalid
(`HasAccelerationStructure() == false`) — never a partially-built structure
reporting `true`.  Both report failure through the boolean result, not an
exception (they are total functions). -/
theorem C4_build_failure_safe (s : Metal_SceneGeometry) (ok : Bool) :
    ((UploadMeshes ok s).1 = false → (UploadMeshes ok s).2 = s) ∧
      ((BuildAccelerationStructure ok s).1 = false →
        HasAccelerationStructure (BuildAccelerationStructure ok s).2 = false) := by
  cases ok <;>
    simp [UploadMeshes, BuildAccelerationStructure, HasAccelerationStructure]

/-- C4 witness: a concrete failing upload and build on a state with a
previously valid structure. -/
theorem C4_build_failure_safe_witness :
    (UploadMeshes false ⟨[3, 5], 0, some [3], true⟩).2 =
        (⟨[3, 5], 0, some [3], true⟩ : Metal_SceneGeometry) ∧
      HasAccelerationStructure
        (BuildAccelerationStructure false ⟨[3, 5], 0, some [3], true⟩).2 = false :=
  ⟨(C4_build_failure_safe ⟨[3, 5], 0, some [3], true⟩ false).1 rfl,
    (C4_build_failure_safe ⟨[3, 5], 0, some [3], true⟩ false).2 rfl⟩

set_option maxRecDepth 10000 in
/-- C5: the claimed range `[0, 1)` fails on the code.  With IEEE binary32
arithmetic, `sample(1, 3486784400)` (index `243^4 - 1`, all permuted digits
maximal) evaluates to exactly `1.0f`: the digit sum `3486784400` rounds up to
the float `3486784512`, and its product with
`float(0.999999999999999 / 3486784401)` rounds up to `1.0`.  Likewise
`sample(2, 244140624)` (index `125^4 - 1`) returns exactly `1.0f`.  This
contradicts the documented return range ("sample value in [0, 1)"). -/
theorem C5_sample_reaches_one :
    fval (sample mkHaltonSampler 1 3486784400) = 1 ∧
      fval (sample mkHaltonSampler 2 244140624) = 1 := by
  have h1 : sample mkHaltonSampler 1 3486784400 = (8388608, -23) := by decide
  have h2 : sample mkHaltonSampler 2 244140624 = (16777216, -24) := by decide
  rw [h1, h2]
  constructor <;> norm_num [fval]

/-- C6 counterexample: `Reset()` re-zeroes the sample counter but does *not*
discard the per-tile variance data — on a state holding variance estimates,
the variance maps survive `Reset()` unchanged and non-empty, contradicting
"the sampler holds no variance data" in the claim. -/
theorem C6_reset_keeps_variance_cx :
    CurrentSample (TileReset tileStateEx) = 0 ∧
      (TileReset tileStateEx).myVarianceMap ≠ [] ∧
      (TileReset tileStateEx).myVarianceMap = tileStateEx.myVarianceMap := by
  refine ⟨rfl, ?_, rfl⟩
  simp [TileReset, tileStateEx]

/-- C6 (amended): from every prior state, `Reset()` zeroes the sample counter
(`CurrentSample()` returns 0 afterwards) and leaves the per-tile variance
data (`myVarianceMap`, `myVarianceRaw`) unchanged — it is refreshed only by
the next `GrabVarianceMap`, not discarded by `Reset()`. -/
theorem C6_reset_zeroes_counter_only (s : Metal_TileSampler) :
    CurrentSample (TileReset s) = 0 ∧
      (TileReset s).myVarianceMap = s.myVarianceMap ∧
      (TileReset s).myVarianceRaw = s.myVarianceRaw :=
  ⟨rfl, rfl, rfl⟩

/-- C7: the constructor builds the permutation tables from nested digit
permutations — identity for every base ≤ 3, the even rule for base 4
(`2b` maps `i ↦ 2·p_b[i]` and `b+i ↦ 2·p_b[i]+1`), the odd rule for base 5
(entries shifted around the fixed middle digit `b`) — and dimension 0 uses
direct bit reversal of the 32-bit index (the swap network of `halton2`
equals the mathematical bit reversal `rev 32`). -/
theorem C7_initFaure_structure :
    (aPerms2 = [0, 1] ∧ aPerms3 = [0, 1, 2]) ∧
      (∀ i, i < 2 → aPerms4.getD i 0 = 2 * aPerms2.getD i 0 ∧
        aPerms4.getD (2 + i) 0 = 2 * aPerms2.getD i 0 + 1) ∧
      (aPerms5.getD 2 0 = 2 ∧
        ∀ i, i < 4 → aPerms5.getD (i + if 2 ≤ i then 1 else 0) 0 =
          aPerms4.getD i 0 + if 2 ≤ aPerms4.getD i 0 then 1 else 0) ∧
      (mkHaltonSampler.myPerm3 = (List.range 243).map (fun i => invert 3 5 i aPerms3) ∧
        mkHaltonSampler.myPerm5 = (List.range 125).map (fun i => invert 5 3 i aPerms5)) ∧
      (∀ n, n < 2 ^ 32 → brev n = rev 32 n) :=
  ⟨⟨by decide, by decide⟩, by decide, ⟨by decide, by decide⟩, ⟨rfl, rfl⟩, brev_eq_rev32⟩

/-- C7 witness: the even rule at position 1, and the bit-reversal equality at
the concrete index 12345. -/
theorem C7_initFaure_structure_witness :
    aPerms4.getD 1 0 = 2 * aPerms2.getD 1 0 ∧ brev 12345 = rev 32 12345 :=
  ⟨(C7_initFaure_structure.2.1 1 (by norm_num)).1,
    C7_initFaure_structure.2.2.2.2 12345 (by norm_num)⟩

/-- C8: the sampler is deterministic and stateless after construction — any
two constructed sampler objects return identical values for identical
`(dimension, index)` arguments through `sample`, `sample2D` and `sample3D`,
and no sampling call mutates the sampler state (the calls are `const`;
modelled as value-and-state pairs). -/
theorem C8_sampler_deterministic_stateless (s1 s2 : Metal_HaltonSampler)
    (h1 : s1 = mkHaltonSampler) (h2 : s2 = mkHaltonSampler) (dim i : Nat) :
    (sampleCall s1 dim i).1 = (sampleCall s2 dim i).1 ∧
      (sample2DCall s1 i).1 = (sample2DCall s2 i).1 ∧
      (sample3DCall s1 i).1 = (sample3DCall s2 i).1 ∧
      (sampleCall s1 dim i).2 = s1 ∧ (sample2DCall s1 i).2 = s1 ∧
      (sample3DCall s1 i).2 = s1 := by
  subst h1
  subst h2
  exact ⟨rfl, rfl, rfl, rfl, rfl, rfl⟩

/-- C8 witness: two (equal) constructed samplers at dimension 1, index 9. -/
theorem C8_sampler_deterministic_stateless_witness :
    (sampleCall mkHaltonSampler 1 9).1 = (sampleCall mkHaltonSampler 1 9).1 ∧
      (sample2DCall mkHaltonSampler 9).1 = (sample2DCall mkHaltonSampler 9).1 ∧
      (sample3DCall mkHaltonSampler 9).1 = (sample3DCall mkHaltonSampler 9).1 ∧
      (sampleCall mkHaltonSampler 1 9).2 = mkHaltonSampler ∧
      (sample2DCall mkHaltonSampler 9).2 = mkHaltonSampler ∧
      (sample3DCall mkHaltonSampler 9).2 = mkHaltonSampler :=
  C8_sampler_deterministic_stateless mkHaltonSampler mkHaltonSampler rfl rfl 1 9

/-- C9: the tuple entry points agree with the per-dimension entry point:
`sample2D(i)` is exactly `(sample(0, i), sample(1, i))` and `sample3D(i)` is
exactly `(sample(0, i), sample(1, i), sample(2, i))` over the fixed bases
2, 3, 5. -/
theorem C9_sample2D3D_equiv (s : Metal_HaltonSampler) (i : Nat) :
    sample2D s i = (sample s 0 i, sample s 1 i) ∧
      sample3D s i = (sample s 0 i, sample s 1 i, sample s 2 i) :=
  ⟨rfl, rfl⟩

/-- C10: a default-constructed bounding box is invalid and is an identity of
the box union `Add`; adding any point always yields a valid box containing
that point; and neither `Add` overload ever shrinks the `[Min, Max]`
interval. -/
theorem C10_boundingBox_algebra :
    boxIsValid mkBoundingBox = false ∧
      (∀ b other, boxIsValid other = false → boxAddBox b other = b) ∧
      (∀ b p, boxIsValid (boxAddPoint b p) = true ∧ boxContains (boxAddPoint b p) p) ∧
      (∀ b p, boxSubset b (boxAddPoint b p)) ∧
      (∀ b other, boxSubset b (boxAddBox b other)) := by
  refine ⟨?_, ?_, ?_, ?_, ?_⟩
  · simp only [boxIsValid, mkBoundingBox, FLT_MAX, decide_eq_false_iff_not]
    norm_num
  · intro b other h
    simp [boxAddBox, h]
  · intro b p
    refine ⟨?_, ?_⟩
    · simp only [boxIsValid, boxAddPoint, decide_eq_true_eq]
      exact le_trans (min_le_right _ _) (le_max_right _ _)
    · exact ⟨min_le_right _ _, le_max_right _ _, min_le_right _ _, le_max_right _ _,
        min_le_right _ _, le_max_right _ _⟩
  · intro b p
    exact ⟨min_le_left _ _, min_le_left _ _, min_le_left _ _, le_max_left _ _,
      le_max_left _ _, le_max_left _ _⟩
  · intro b other
    by_cases h : boxIsValid other = true
    · have e : boxAddBox b other = boxAddPoint (boxAddPoint b other.Min) other.Max := by
        simp [boxAddBox, h]
      rw [e]
      exact ⟨le_trans (min_le_left _ _) (min_le_left _ _),
        le_trans (min_le_left _ _) (min_le_left _ _),
        le_trans (min_le_left _ _) (min_le_left _ _),
        le_trans (le_max_left _ _) (le_max_left _ _),
        le_trans (le_max_left _ _) (le_max_left _ _),
        le_trans (le_max_left _ _) (le_max_left _ _)⟩
    · have hf : boxIsValid other = false := by
        rcases Bool.eq_false_or_eq_true (boxIsValid other) with ht | hf
        · exact absurd ht h
        · exact hf
      have e : boxAddBox b other = b := by simp [boxAddBox, hf]
      rw [e]
      exact ⟨le_refl _, le_refl _, le_refl _, le_refl _, le_refl _, le_refl _⟩

/-- C10 witness: the default box acts as an identity on a concrete box, which
contains its added point. -/
theorem C10_boundingBox_algebra_witness :
    boxAddBox (boxAddPoint mkBoundingBox ⟨1, 2, 3⟩) mkBoundingBox =
        boxAddPoint mkBoundingBox ⟨1, 2, 3⟩ ∧
      boxContains (boxAddPoint mkBoundingBox ⟨1, 2, 3⟩) ⟨1, 2, 3⟩ :=
  ⟨C10_boundingBox_algebra.2.1 _ mkBoundingBox C10_boundingBox_algebra.1,
    (C10_boundingBox_algebra.2.2.1 mkBoundingBox ⟨1, 2, 3⟩).2⟩

end OCCTMetal
